import Mathlib

/-!
Shallow embedding of `cofgate.py` (a config-gate CLI): the tool scans the
added lines of a git diff for `findByDomainNameAndType("domain", "type")`
calls, deduplicates the extracted (domainName, domainType) pairs, probes a
registry directory tree for `{registry}/{lob|default}/{dn}/{dt}/{env}.txt`
for the three environments `uat`, `demo`, `prod`, prints a report and exits
0 exactly when every LOB-path file exists (or when no pair was found).

The filesystem is modelled as a total map from path strings to entry kinds;
the git-diff subprocess is an oracle (`Except stderr stdoutLines`); printing
is modelled as the list of arguments passed to `print`.  String scanning is
done on `String.data` character lists, which mirrors Python's per-character
semantics (the regex `\s` is modelled on its ASCII subset, which covers the
whitespace characters relevant to source code lines).
-/

/-- Kind of filesystem entry found at a path: regular file, directory, or
nothing.  `os.path.isfile` is true only on `file`, `os.path.isdir` only on
`dir`. -/
inductive FsEntry where
  | file : FsEntry
  | dir : FsEntry
  | absent : FsEntry
deriving DecidableEq

/-- Model of `os.path.isfile`. -/
def isfile (fs : String → FsEntry) (p : String) : Bool :=
  match fs p with
  | FsEntry.file => true
  | _ => false

/-- Model of `os.path.isdir`. -/
def isdir (fs : String → FsEntry) (p : String) : Bool :=
  match fs p with
  | FsEntry.dir => true
  | _ => false

/-- Model of `os.path.join(a, b)` (posix): an absolute second component
resets the path; otherwise a separator is inserted unless one is already
present.  "Starts with / " and "ends with / " are expressed on the
character list of the string. -/
def pjoin2 (a b : String) : String :=
  if b.data.head? = some '/' then b
  else if a.data = [] ∨ a.data.getLast? = some '/' then a ++ b
  else a ++ "/" ++ b

/-- The fixed environment list `ENVIRONMENTS = ["uat", "demo", "prod"]`. -/
def ENVIRONMENTS : List String := ["uat", "demo", "prod"]

/-- Model of `line.startswith(p)` on character lists. -/
def strStartsWith (s p : String) : Bool := p.data.isPrefixOf s.data

/-- Model of `line[1:]`: drop the first character. -/
def strDrop1 (s : String) : String := String.mk (s.data.drop 1)

/-- ASCII whitespace recognised by the regex class `\s`. -/
def isPySpace (c : Char) : Bool :=
  c = ' ' || c = '\t' || c = '\n' || c = '\r' || c = '\x0b' || c = '\x0c'

/-- The two quote characters of the regex class `["\']`. -/
def isQuote (c : Char) : Bool := c = '"' || c = '\''

/-- The literal part of the regex: `findByDomainNameAndType`. -/
def litChars : List Char := "findByDomainNameAndType".data

/-- Consume an expected literal character sequence. -/
def expectLit : List Char → List Char → Option (List Char)
  | [], s => some s
  | _ :: _, [] => none
  | c :: cs, d :: ds => if d = c then expectLit cs ds else none

/-- Consume one expected character. -/
def expectChar (c : Char) : List Char → Option (List Char)
  | [] => none
  | d :: ds => if d = c then some ds else none

/-- Consume one quote character, `["\']`: either quote is accepted. -/
def expectQuote : List Char → Option (List Char)
  | [] => none
  | d :: ds => if isQuote d then some ds else none

/-- Consume `([^"\']+)["\']`: a nonempty run of non-quote characters (the
capture group) followed by a closing quote (either kind). -/
def takeArg (s : List Char) : Option (String × List Char) :=
  let content := List.takeWhile (fun c => !(isQuote c)) s
  if content.isEmpty then none
  else
    Option.map (fun rest => (String.mk content, rest))
      (expectQuote (List.dropWhile (fun c => !(isQuote c)) s))

/-- Try to match the whole regex
`findByDomainNameAndType\s*\(\s*["\']([^"\']+)["\']\s*,\s*["\']([^"\']+)["\']\s*\)`
at the head of `s`; on success return the two captures and the remaining
characters.  The regex is deterministic (each `\s*` and each capture is
followed by a character disjoint from the repeated class), so this direct
matcher has the same semantics as the backtracking engine. -/
def matchAt (s : List Char) : Option (String × String × List Char) :=
  Option.bind (expectLit litChars s) fun s1 =>
  Option.bind (expectChar '(' (List.dropWhile isPySpace s1)) fun s2 =>
  Option.bind (expectQuote (List.dropWhile isPySpace s2)) fun s3 =>
  Option.bind (takeArg s3) fun a4 =>
  Option.bind (expectChar ',' (List.dropWhile isPySpace a4.2)) fun s5 =>
  Option.bind (expectQuote (List.dropWhile isPySpace s5)) fun s6 =>
  Option.bind (takeArg s6) fun b7 =>
  Option.map (fun s8 => (a4.1, b7.1, s8))
    (expectChar ')' (List.dropWhile isPySpace b7.2))

/-- Model of `pattern.finditer(line)`: scan left to right, emitting each
leftmost non-overlapping match and continuing after its end.  Fuelled by
the length of the list; a successful match always consumes at least the
pattern literal, so the fuel never runs out before the characters do. -/
def scanAux : Nat → List Char → List (String × String)
  | 0, _ => []
  | Nat.succ _, [] => []
  | Nat.succ n, c :: cs =>
    match matchAt (c :: cs) with
    | some (a, b, rest) => (a, b) :: scanAux n rest
    | none => scanAux n cs

/-- All matches of the pattern on one line, in order. -/
def lineMatches (line : String) : List (String × String) :=
  scanAux line.data.length line.data

/-- Model of `results.add(p)` on a Python `set`, represented as a
duplicate-free list in first-insertion order. -/
def dedupInsert (acc : List (String × String)) (p : String × String) :
    List (String × String) :=
  if p ∈ acc then acc else acc ++ [p]

/-- Model of `extract_domain_pairs`: collect every match of the pattern on
every line into a set. -/
def extract_domain_pairs (lines : List String) : List (String × String) :=
  lines.foldl (fun results line => (lineMatches line).foldl dedupInsert results) []

/-- Model of the pure filtering part of `get_added_lines_from_git_diff`:
keep lines starting with `+` but not `+++`, stripping the leading `+`. -/
def get_added_lines (stdout_lines : List String) : List String :=
  stdout_lines.foldl
    (fun added_lines line =>
      if strStartsWith line "+" && !(strStartsWith line "+++") then
        added_lines ++ [strDrop1 line]
      else added_lines)
    []

/-- Specification-side predicate: the line carries the addition marker. -/
def isAdditionLine (line : String) : Bool := strStartsWith line "+"

/-- Specification-side predicate: the line is a `+++` file-path marker of
the diff header. -/
def isFileHeaderLine (line : String) : Bool := strStartsWith line "+++"

/-- The file probed for one environment:
`os.path.join(base_path, domain_name, domain_type, f"{env}.txt")`. -/
def envPath (base_path domain_name domain_type env : String) : String :=
  pjoin2 (pjoin2 (pjoin2 base_path domain_name) domain_type) (env ++ ".txt")

/-- Model of `check_env_files`: an association list mapping each
environment to `(exists, full_path)`, in the fixed environment order. -/
def check_env_files (fs : String → FsEntry) (base_path domain_name domain_type : String) :
    List (String × Bool × String) :=
  ENVIRONMENTS.map fun env =>
    (env, isfile fs (envPath base_path domain_name domain_type env),
     envPath base_path domain_name domain_type env)

/-- Lookup of `results[env]` in the association list produced by
`check_env_files` (total, with a dummy value on a missing key, which never
happens on lists built by `check_env_files`). -/
def getEnv (l : List (String × Bool × String)) (env : String) : Bool × String :=
  match List.find? (fun e => decide (e.1 = env)) l with
  | some e => e.2
  | none => (false, "")

/-- One entry of the `results` list of `check_registry_configs`. -/
structure DomainReport where
  domain_name : String
  domain_type : String
  label : String
  lob : List (String × Bool × String)
  default : List (String × Bool × String)

/-- Model of `check_registry_configs`: one report per domain pair, probing
both the LOB base path and the default base path. -/
def check_registry_configs (fs : String → FsEntry) (registry_path lob : String)
    (domain_pairs : List (String × String)) : List DomainReport :=
  let lob_base_path := pjoin2 registry_path lob
  let default_base_path := pjoin2 registry_path "default"
  domain_pairs.map fun p =>
    { domain_name := p.1
      domain_type := p.2
      label := p.1 ++ "/" ++ p.2
      lob := check_env_files fs lob_base_path p.1 p.2
      default := check_env_files fs default_base_path p.1 p.2 }

/-- Strict lexicographic comparison of character lists by code point,
mirroring Python string comparison. -/
def charListLt : List Char → List Char → Bool
  | _, [] => false
  | [], _ :: _ => true
  | c :: cs, d :: ds => if c = d then charListLt cs ds else decide (c.val < d.val)

/-- Python `s < t` on strings. -/
def pyStrLt (s t : String) : Bool := charListLt s.data t.data

/-- Python `s <= t` on strings. -/
def pyStrLe (s t : String) : Bool := !(pyStrLt t s)

/-- Python `p <= q` on pairs of strings (lexicographic on components). -/
def pyPairLe (p q : String × String) : Bool :=
  if p.1 = q.1 then pyStrLe p.2 q.2 else pyStrLt p.1 q.1

/-- Stable insertion of one element into a list sorted by `le`. -/
def orderedInsertB (le : α → α → Bool) (x : α) : List α → List α
  | [] => [x]
  | y :: ys => if le x y then x :: y :: ys else y :: orderedInsertB le x ys

/-- Stable insertion sort by a boolean relation, modelling Python
`sorted`. -/
def insertionSortB (le : α → α → Bool) : List α → List α
  | [] => []
  | x :: xs => orderedInsertB le x (insertionSortB le xs)

/-- Ordering of reports used by `print_results`: `key=lambda x: x["label"]`. -/
def reportLe (x y : DomainReport) : Bool := pyStrLe x.label y.label

/-- Model of `sorted(results, key=lambda x: x["label"])`. -/
def sortReports (results : List DomainReport) : List DomainReport :=
  insertionSortB reportLe results

/-- One argument of a `print(...)` call: ordinary text, or the Python
`repr` of the list of added lines (kept symbolic). -/
inductive OutLine where
  | text : String → OutLine
  | strListRepr : List String → OutLine

/-- The banner `'='*60`. -/
def eqBanner : String := String.mk (List.replicate 60 '=')

/-- Left-aligned padding to width 6, as in the format spec `{...:6}`. -/
def pad6 (s : String) : String := s ++ String.mk (List.replicate (6 - s.length) ' ')

/-- Status marker printed for one environment. -/
def statusStr (ex : Bool) : String := if ex then "✓ OK" else "✗ MISSING"

/-- The per-environment status line `    {ENV:6} : {status}`. -/
def envStatusLine (env : String) (ex : Bool) : String :=
  "    " ++ pad6 env.toUpper ++ " : " ++ statusStr ex

/-- Whether all default-path files of one report exist
(`all(item["default"][env][0] for env in ENVIRONMENTS)`). -/
def defaultAllPresent (item : DomainReport) : Bool :=
  ENVIRONMENTS.all fun env => (getEnv item.default env).1

/-- The block of print calls emitted for one report by `print_results`. -/
def itemBlock (lob : String) (item : DomainReport) : List OutLine :=
  [OutLine.text ("\n" ++ eqBanner),
   OutLine.text ("Domain: " ++ item.label),
   OutLine.text eqBanner,
   OutLine.text ("\n  [" ++ lob.toUpper ++ "] Path:")]
  ++ (ENVIRONMENTS.map fun env =>
        [OutLine.text (envStatusLine env (getEnv item.lob env).1)]
        ++ (if (getEnv item.lob env).1 then []
            else [OutLine.text ("             Expected: " ++ (getEnv item.lob env).2)])).flatten
  ++ [OutLine.text "\n  [DEFAULT] Path (all values present indicator):"]
  ++ (ENVIRONMENTS.map fun env => OutLine.text (envStatusLine env (getEnv item.default env).1))
  ++ [OutLine.text (if defaultAllPresent item then
        "\n  ✓ All default configs present for " ++ item.label
      else
        "\n  ⚠ Some default configs missing for " ++ item.label)]

/-- Model of `print_results`: the print calls and the returned `all_ok`
flag.  `all_ok` starts `True` and is cleared whenever an LOB-path file is
missing; default-path results never touch it. -/
def print_results (results : List DomainReport) (lob : String) : List OutLine × Bool :=
  ((sortReports results).map (itemBlock lob) |>.flatten,
   (sortReports results).foldl
     (fun all_ok item =>
       ENVIRONMENTS.foldl (fun ok env => ok && (getEnv item.lob env).1) all_ok)
     true)

/-- Result of one whole run: the exit status, whether the git-diff
subprocess was ever invoked, and everything printed. -/
structure RunResult where
  exitCode : Nat
  diffInvoked : Bool
  output : List OutLine

/-- Path validation done in `parse_args`: returns the diagnostic of the
first failing check, or `none` when all three pass. -/
def validate_args (fs : String → FsEntry) (repo_path registry_path : String) :
    Option String :=
  if !(isdir fs repo_path) then
    some ("ERROR: Source repo path does not exist: " ++ repo_path)
  else if !(isdir fs (pjoin2 repo_path ".git")) then
    some ("ERROR: Source repo path is not a git repository: " ++ repo_path)
  else if !(isdir fs registry_path) then
    some ("ERROR: Registry path does not exist: " ++ registry_path)
  else none

/-- Model of `main`: validation, diff (an oracle delivering either the
tool's stderr or its stdout split into lines), extraction, registry check,
report, and exit status. -/
def main_run (fs : String → FsEntry) (feature_branch master_branch lob repo_path registry_path : String)
    (git_diff : Except String (List String)) : RunResult :=
  match validate_args fs repo_path registry_path with
  | some msg => { exitCode := 1, diffInvoked := false, output := [OutLine.text msg] }
  | none =>
    let header : List OutLine :=
      [OutLine.text ("Source Repo: " ++ repo_path),
       OutLine.text ("Scanning git diff: " ++ master_branch ++ "..." ++ feature_branch),
       OutLine.text ("LOB: " ++ lob),
       OutLine.text ("Registry Path: " ++ registry_path)]
    match git_diff with
    | Except.error stderr_text =>
      { exitCode := 1
        diffInvoked := true
        output := header ++
          [OutLine.text ("ERROR: Failed to run git diff " ++ master_branch ++ "..." ++
             feature_branch ++ " in " ++ repo_path),
           OutLine.text stderr_text] }
    | Except.ok stdout_lines =>
      let added_lines := get_added_lines stdout_lines
      let domain_pairs := extract_domain_pairs added_lines
      if domain_pairs.isEmpty then
        { exitCode := 0
          diffInvoked := true
          output := header ++
            [OutLine.strListRepr added_lines,
             OutLine.text "\nNo findByDomainNameAndType calls detected in diff"] }
      else
        let results := check_registry_configs fs registry_path lob domain_pairs
        let pr := print_results results lob
        { exitCode := if pr.2 then 0 else 1
          diffInvoked := true
          output := header ++
            [OutLine.strListRepr added_lines,
             OutLine.text ("\nFound " ++ toString domain_pairs.length ++ " domain config(s) in diff:")]
            ++ (insertionSortB pyPairLe domain_pairs).map
                 (fun p => OutLine.text ("  - " ++ p.1 ++ "/" ++ p.2))
            ++ pr.1
            ++ [OutLine.text ("\n" ++ eqBanner),
                OutLine.text (if pr.2 then "✓ All LOB config files exist!"
                  else "✗ Some LOB config files are missing!")] }

/-- Filesystem of the C2 counterexample run without the default files:
only the directories needed to pass validation exist. -/
def cexFsMissing : String → FsEntry := fun p =>
  if p ∈ ["repo", "repo/.git", "r"] then FsEntry.dir else FsEntry.absent

/-- Filesystem of the C2 counterexample run with the default files
present: same as `cexFsMissing` plus the three default-path files. -/
def cexFsPresent : String → FsEntry := fun p =>
  if p ∈ ["r/default/a/b/uat.txt", "r/default/a/b/demo.txt", "r/default/a/b/prod.txt"]
  then FsEntry.file else cexFsMissing p

/-- Diff output of the C2 counterexample: one added lookup call. -/
def cexLines : List String := ["+findByDomainNameAndType(\"a\", \"b\")"]

/-- The character sequence of one occurrence of the lookup pattern, as the
specification describes it: the literal call name, whitespace `ws1`..`ws5`
at the five tolerated spots (before and inside the parentheses and around
the comma), quote characters `q1`..`q4` delimiting the two argument texts
`a` and `b`, followed by the remaining characters `rest` of the line. -/
def occurrenceShape (ws1 ws2 ws3 ws4 ws5 a b : List Char) (q1 q2 q3 q4 : Char)
    (rest : List Char) : List Char :=
  litChars ++ (ws1 ++ ('(' :: (ws2 ++ (q1 :: (a ++ (q2 :: (ws3 ++ (',' :: (ws4 ++ (q3 :: (b ++ (q4 :: (ws5 ++ (')' :: rest))))))))))))))

/-- Side conditions making `occurrenceShape` an occurrence of the pattern:
the tolerated spots hold whitespace, the two argument texts are nonempty
and quote-free, and the four delimiters are quote characters (matched or
mismatched). -/
abbrev occurrenceSides (ws1 ws2 ws3 ws4 ws5 a b : List Char) (q1 q2 q3 q4 : Char) : Prop :=
  (∀ c ∈ ws1, isPySpace c = true) ∧ (∀ c ∈ ws2, isPySpace c = true) ∧
    (∀ c ∈ ws3, isPySpace c = true) ∧ (∀ c ∈ ws4, isPySpace c = true) ∧
    (∀ c ∈ ws5, isPySpace c = true) ∧
    a ≠ [] ∧ (∀ c ∈ a, isQuote c = false) ∧ b ≠ [] ∧ (∀ c ∈ b, isQuote c = false) ∧
    isQuote q1 = true ∧ isQuote q2 = true ∧ isQuote q3 = true ∧ isQuote q4 = true

/-! ### Generic list lemmas -/

theorem orderedInsertB_perm (le : α → α → Bool) (x : α) (l : List α) :
    (orderedInsertB le x l).Perm (x :: l) := by
  induction l with
  | nil => exact List.Perm.refl _
  | cons y ys ih =>
    unfold orderedInsertB
    by_cases h : le x y = true
    · rw [if_pos h]
    · rw [if_neg h]
      exact (ih.cons y).trans (List.Perm.swap x y ys)

theorem insertionSortB_perm (le : α → α → Bool) (l : List α) :
    (insertionSortB le l).Perm l := by
  induction l with
  | nil => exact List.Perm.refl _
  | cons x xs ih => exact (orderedInsertB_perm le x _).trans (ih.cons x)

theorem mem_foldl_dedupInsert (l : List (String × String)) :
    ∀ (acc : List (String × String)) (x : String × String),
      (x ∈ l.foldl dedupInsert acc ↔ x ∈ acc ∨ x ∈ l) := by
  induction l with
  | nil => intro acc x; simp
  | cons y ys ih =>
    intro acc x
    rw [List.foldl_cons, ih]
    unfold dedupInsert
    by_cases h : y ∈ acc
    · rw [if_pos h]
      simp only [List.mem_cons]
      constructor
      · rintro (hx | hx)
        · exact Or.inl hx
        · exact Or.inr (Or.inr hx)
      · rintro (hx | rfl | hx)
        · exact Or.inl hx
        · exact Or.inl h
        · exact Or.inr hx
    · rw [if_neg h]
      simp only [List.mem_append, List.mem_singleton, List.mem_cons]
      tauto

theorem nodup_foldl_dedupInsert (l : List (String × String)) :
    ∀ acc : List (String × String), acc.Nodup → (l.foldl dedupInsert acc).Nodup := by
  induction l with
  | nil => intro acc h; simpa using h
  | cons y ys ih =>
    intro acc h
    rw [List.foldl_cons]
    apply ih
    unfold dedupInsert
    by_cases hy : y ∈ acc
    · rwa [if_pos hy]
    · rw [if_neg hy]
      refine List.Nodup.append h (List.nodup_singleton y) ?_
      intro z hz hz'
      rw [List.mem_singleton] at hz'
      exact hy (hz' ▸ hz)

theorem mem_extract_iff (lines : List String) (p : String × String) :
    p ∈ extract_domain_pairs lines ↔ ∃ line ∈ lines, p ∈ lineMatches line := by
  unfold extract_domain_pairs
  suffices h : ∀ acc : List (String × String),
      (p ∈ lines.foldl (fun r line => (lineMatches line).foldl dedupInsert r) acc ↔
        p ∈ acc ∨ ∃ line ∈ lines, p ∈ lineMatches line) by
    simpa using h []
  induction lines with
  | nil => intro acc; simp
  | cons l ls ih =>
    intro acc
    rw [List.foldl_cons, ih, mem_foldl_dedupInsert]
    constructor
    · rintro ((hx | hx) | ⟨line, hline, hx⟩)
      · exact Or.inl hx
      · exact Or.inr ⟨l, List.mem_cons_self l ls, hx⟩
      · exact Or.inr ⟨line, List.mem_cons_of_mem l hline, hx⟩
    · rintro (hx | ⟨line, hline, hx⟩)
      · exact Or.inl (Or.inl hx)
      · rcases List.mem_cons.mp hline with rfl | hline'
        · exact Or.inl (Or.inr hx)
        · exact Or.inr ⟨line, hline', hx⟩

theorem nodup_extract (lines : List String) : (extract_domain_pairs lines).Nodup := by
  unfold extract_domain_pairs
  suffices h : ∀ acc : List (String × String), acc.Nodup →
      (lines.foldl (fun r line => (lineMatches line).foldl dedupInsert r) acc).Nodup by
    exact h [] List.nodup_nil
  induction lines with
  | nil => intro acc hacc; simpa using hacc
  | cons l ls ih =>
    intro acc hacc
    rw [List.foldl_cons]
    exact ih _ (nodup_foldl_dedupInsert _ _ hacc)

theorem foldl_and_eq (f : α → Bool) (l : List α) :
    ∀ b : Bool, l.foldl (fun ok x => ok && f x) b = (b && l.all f) := by
  induction l with
  | nil => intro b; simp
  | cons x xs ih => intro b; simp [List.foldl_cons, ih, Bool.and_assoc]

theorem foldl_filter_map (p : α → Bool) (f : α → β) (l : List α) :
    ∀ acc : List β,
      l.foldl (fun acc x => if p x then acc ++ [f x] else acc) acc
        = acc ++ (l.filter p).map f := by
  induction l with
  | nil => intro acc; simp
  | cons x xs ih =>
    intro acc
    rw [List.foldl_cons]
    by_cases h : p x = true
    · rw [if_pos h, ih, List.filter_cons_of_pos h]
      simp
    · rw [if_neg h, ih, List.filter_cons_of_neg (by simpa using h)]

theorem countP_eq_one_of_nodup (q : α → Bool) (x : α) (xs : List α) (hn : xs.Nodup)
    (hx : x ∈ xs) (hq : ∀ y, q y = true ↔ y = x) : List.countP q xs = 1 := by
  induction xs with
  | nil => cases hx
  | cons y ys ih =>
    rw [List.nodup_cons] at hn
    rcases List.mem_cons.mp hx with heq | hmem
    · rw [List.countP_cons_of_pos q _ ((hq y).mpr heq.symm)]
      have hz : List.countP q ys = 0 := by
        rw [List.countP_eq_zero]
        intro z hz hqz
        rw [(hq z).mp hqz, heq] at hz
        exact hn.1 hz
      rw [hz]
    · have hy : q y = false := by
        rcases Bool.eq_false_or_eq_true (q y) with h | h
        · exfalso
          apply hn.1
          rw [(hq y).mp h]
          exact hmem
        · exact h
      rw [List.countP_cons_of_neg q _ (by simp [hy]), ih hn.2 hmem]

/-! ### Lemmas about the pattern matcher -/

theorem expectLit_append (p : List Char) : ∀ s : List Char, expectLit p (p ++ s) = some s := by
  induction p with
  | nil => intro s; rfl
  | cons c cs ih => intro s; simp [expectLit, ih]

theorem expectChar_self (c : Char) (s : List Char) : expectChar c (c :: s) = some s := by
  simp [expectChar]

theorem expectQuote_cons {q : Char} (hq : isQuote q = true) (s : List Char) :
    expectQuote (q :: s) = some s := by
  simp [expectQuote, hq]

theorem dropWhile_append_all {p : Char → Bool} (ws : List Char) (s : List Char)
    (h : ∀ c ∈ ws, p c = true) : List.dropWhile p (ws ++ s) = List.dropWhile p s := by
  induction ws with
  | nil => rfl
  | cons c cs ih =>
    rw [List.cons_append, List.dropWhile_cons, h c (List.mem_cons_self c cs)]
    exact ih (fun d hd => h d (List.mem_cons_of_mem c hd))

theorem dropWhile_cons_of_neg (p : Char → Bool) (c : Char) (s : List Char) (h : p c = false) :
    List.dropWhile p (c :: s) = c :: s := by
  simp [List.dropWhile_cons, h]

theorem takeWhile_append_stop {p : Char → Bool} (a : List Char) (q : Char) (s : List Char)
    (ha : ∀ c ∈ a, p c = true) (hq : p q = false) :
    List.takeWhile p (a ++ q :: s) = a := by
  induction a with
  | nil => simp [List.takeWhile_cons, hq]
  | cons c cs ih =>
    rw [List.cons_append, List.takeWhile_cons, ha c (List.mem_cons_self c cs)]
    rw [ih (fun d hd => ha d (List.mem_cons_of_mem c hd))]
    simp

theorem dropWhile_append_stop {p : Char → Bool} (a : List Char) (q : Char) (s : List Char)
    (ha : ∀ c ∈ a, p c = true) (hq : p q = false) :
    List.dropWhile p (a ++ q :: s) = q :: s := by
  rw [dropWhile_append_all a _ ha]
  exact dropWhile_cons_of_neg p q s hq

theorem isPySpace_eq_false_of_isQuote {c : Char} (h : isQuote c = true) :
    isPySpace c = false := by
  have hc : c = '"' ∨ c = '\'' := by
    simpa [isQuote, Bool.or_eq_true, decide_eq_true_eq] using h
  rcases hc with rfl | rfl <;> decide

theorem takeArg_canonical (a : List Char) (q : Char) (s : List Char)
    (ha : a ≠ []) (haq : ∀ c ∈ a, isQuote c = false) (hq : isQuote q = true) :
    takeArg (a ++ q :: s) = some (String.mk a, s) := by
  have ht : List.takeWhile (fun c => !(isQuote c)) (a ++ q :: s) = a :=
    takeWhile_append_stop a q s (fun c hc => by simp [haq c hc]) (by simp [hq])
  have hd : List.dropWhile (fun c => !(isQuote c)) (a ++ q :: s) = q :: s :=
    dropWhile_append_stop a q s (fun c hc => by simp [haq c hc]) (by simp [hq])
  unfold takeArg
  rw [ht, hd, expectQuote_cons hq]
  rw [if_neg (by simpa using ha)]
  rfl

theorem takeArg_eq_some {s : List Char} {str : String} {rest : List Char}
    (h : takeArg s = some (str, rest)) :
    str.data ≠ [] ∧ ∀ c ∈ str.data, isQuote c = false := by
  unfold takeArg at h
  by_cases he : (List.takeWhile (fun c => !(isQuote c)) s).isEmpty
  · rw [if_pos he] at h; cases h
  · rw [if_neg he] at h
    rw [Option.map_eq_some'] at h
    obtain ⟨r, _, heq⟩ := h
    simp only [Prod.mk.injEq] at heq
    obtain ⟨h1, _⟩ := heq
    constructor
    · rw [← h1]
      simpa using he
    · intro c hc
      rw [← h1] at hc
      have := List.mem_takeWhile_imp hc
      simpa using this

theorem matchAt_canonical
    (ws1 ws2 ws3 ws4 ws5 a b : List Char) (q1 q2 q3 q4 : Char) (rest : List Char)
    (h1 : ∀ c ∈ ws1, isPySpace c = true) (h2 : ∀ c ∈ ws2, isPySpace c = true)
    (h3 : ∀ c ∈ ws3, isPySpace c = true) (h4 : ∀ c ∈ ws4, isPySpace c = true)
    (h5 : ∀ c ∈ ws5, isPySpace c = true)
    (ha : a ≠ []) (haq : ∀ c ∈ a, isQuote c = false)
    (hb : b ≠ []) (hbq : ∀ c ∈ b, isQuote c = false)
    (hq1 : isQuote q1 = true) (hq2 : isQuote q2 = true)
    (hq3 : isQuote q3 = true) (hq4 : isQuote q4 = true) :
    matchAt (litChars ++ (ws1 ++ ('(' :: (ws2 ++ (q1 :: (a ++ (q2 :: (ws3 ++ (',' :: (ws4 ++ (q3 :: (b ++ (q4 :: (ws5 ++ (')' :: rest))))))))))))))) = some (String.mk a, String.mk b, rest) := by
  unfold matchAt
  rw [expectLit_append]
  simp only [Option.some_bind]
  rw [dropWhile_append_all ws1 _ h1, dropWhile_cons_of_neg isPySpace '(' _ (by decide),
      expectChar_self]
  simp only [Option.some_bind]
  rw [dropWhile_append_all ws2 _ h2,
      dropWhile_cons_of_neg isPySpace q1 _ (isPySpace_eq_false_of_isQuote hq1),
      expectQuote_cons hq1]
  simp only [Option.some_bind]
  rw [takeArg_canonical a q2 _ ha haq hq2]
  simp only [Option.some_bind]
  rw [dropWhile_append_all ws3 _ h3, dropWhile_cons_of_neg isPySpace ',' _ (by decide),
      expectChar_self]
  simp only [Option.some_bind]
  rw [dropWhile_append_all ws4 _ h4,
      dropWhile_cons_of_neg isPySpace q3 _ (isPySpace_eq_false_of_isQuote hq3),
      expectQuote_cons hq3]
  simp only [Option.some_bind]
  rw [takeArg_canonical b q4 _ hb hbq hq4]
  simp only [Option.some_bind]
  rw [dropWhile_append_all ws5 _ h5, dropWhile_cons_of_neg isPySpace ')' _ (by decide),
      expectChar_self]
  simp [Option.map_some']

theorem scanAux_succ_cons (n : Nat) (c : Char) (cs : List Char) :
    scanAux (n + 1) (c :: cs) =
      match matchAt (c :: cs) with
      | some (a, b, rest) => (a, b) :: scanAux n rest
      | none => scanAux n cs := rfl

theorem scanAux_nil (n : Nat) : scanAux n [] = [] := by
  cases n <;> rfl

theorem scanAux_single (n : Nat) (c : Char) (cs : List Char) (a b : String)
    (h : matchAt (c :: cs) = some (a, b, [])) :
    scanAux (n + 1) (c :: cs) = [(a, b)] := by
  rw [scanAux_succ_cons, h]
  simp [scanAux_nil]

theorem mem_scanAux {x : String × String} :
    ∀ (n : Nat) (s : List Char), x ∈ scanAux n s →
      ∃ s0 rest, matchAt s0 = some (x.1, x.2, rest) := by
  intro n
  induction n with
  | zero => intro s h; simp [scanAux] at h
  | succ n ih =>
    intro s h
    cases s with
    | nil => rw [scanAux_nil] at h; cases h
    | cons c cs =>
      rw [scanAux_succ_cons] at h
      split at h
      next va vb vrest heq =>
        rcases List.mem_cons.mp h with rfl | hmem
        · exact ⟨c :: cs, vrest, heq⟩
        · exact ih vrest hmem
      next heq => exact ih cs h

theorem matchAt_eq_some {s : List Char} {a b : String} {rest : List Char}
    (h : matchAt s = some (a, b, rest)) :
    (a.data ≠ [] ∧ ∀ c ∈ a.data, isQuote c = false) ∧
      (b.data ≠ [] ∧ ∀ c ∈ b.data, isQuote c = false) := by
  unfold matchAt at h
  rw [Option.bind_eq_some] at h; obtain ⟨s1, _, h⟩ := h
  rw [Option.bind_eq_some] at h; obtain ⟨s2, _, h⟩ := h
  rw [Option.bind_eq_some] at h; obtain ⟨s3, _, h⟩ := h
  rw [Option.bind_eq_some] at h; obtain ⟨a4, ha4, h⟩ := h
  rw [Option.bind_eq_some] at h; obtain ⟨s5, _, h⟩ := h
  rw [Option.bind_eq_some] at h; obtain ⟨s6, _, h⟩ := h
  rw [Option.bind_eq_some] at h; obtain ⟨b7, hb7, h⟩ := h
  rw [Option.map_eq_some'] at h; obtain ⟨s8, _, heq⟩ := h
  simp only [Prod.mk.injEq] at heq
  obtain ⟨hA, hB, _⟩ := heq
  have pa := takeArg_eq_some ha4
  have pb := takeArg_eq_some hb7
  rw [hA] at pa
  rw [hB] at pb
  exact ⟨pa, pb⟩

theorem occurrenceShape_ne_nil (ws1 ws2 ws3 ws4 ws5 a b : List Char) (q1 q2 q3 q4 : Char)
    (rest : List Char) :
    occurrenceShape ws1 ws2 ws3 ws4 ws5 a b q1 q2 q3 q4 rest ≠ [] := by
  simp only [occurrenceShape]
  intro h
  exact (by decide : litChars ≠ []) (List.append_eq_nil.mp h).1

theorem occurrenceShape_append (ws1 ws2 ws3 ws4 ws5 a b : List Char) (q1 q2 q3 q4 : Char)
    (rest : List Char) :
    occurrenceShape ws1 ws2 ws3 ws4 ws5 a b q1 q2 q3 q4 rest
      = occurrenceShape ws1 ws2 ws3 ws4 ws5 a b q1 q2 q3 q4 [] ++ rest := by
  simp [occurrenceShape, List.append_assoc]

theorem expectLit_decomp : ∀ (p s s' : List Char), expectLit p s = some s' → s = p ++ s' := by
  intro p
  induction p with
  | nil =>
    intro s s' h
    simp only [expectLit, Option.some.injEq] at h
    simp [h]
  | cons c cs ih =>
    intro s s' h
    cases s with
    | nil => simp [expectLit] at h
    | cons d ds =>
      simp only [expectLit] at h
      by_cases hd : d = c
      · rw [if_pos hd] at h
        subst hd
        rw [List.cons_append, ih ds s' h]
      · rw [if_neg hd] at h
        cases h

theorem expectChar_decomp {c : Char} {s s' : List Char} (h : expectChar c s = some s') :
    s = c :: s' := by
  cases s with
  | nil => simp [expectChar] at h
  | cons d ds =>
    simp only [expectChar] at h
    by_cases hd : d = c
    · rw [if_pos hd] at h
      injection h with h2
      rw [hd, h2]
    · rw [if_neg hd] at h
      cases h

theorem expectQuote_decomp {s s' : List Char} (h : expectQuote s = some s') :
    ∃ q, isQuote q = true ∧ s = q :: s' := by
  cases s with
  | nil => simp [expectQuote] at h
  | cons d ds =>
    simp only [expectQuote] at h
    by_cases hd : isQuote d = true
    · rw [if_pos hd] at h
      injection h with h2
      exact ⟨d, hd, by rw [h2]⟩
    · rw [if_neg hd] at h
      cases h

theorem takeArg_decomp {s : List Char} {str : String} {rest : List Char}
    (h : takeArg s = some (str, rest)) :
    ∃ q, isQuote q = true ∧ s = str.data ++ q :: rest ∧ str.data ≠ [] ∧
      ∀ c ∈ str.data, isQuote c = false := by
  unfold takeArg at h
  by_cases he : (List.takeWhile (fun c => !(isQuote c)) s).isEmpty
  · rw [if_pos he] at h
    cases h
  · rw [if_neg he] at h
    rw [Option.map_eq_some'] at h
    obtain ⟨r, hr, heq⟩ := h
    simp only [Prod.mk.injEq] at heq
    obtain ⟨h1, h2⟩ := heq
    obtain ⟨q, hq, hdw⟩ := expectQuote_decomp hr
    subst h2
    refine ⟨q, hq, ?_, ?_, ?_⟩
    · rw [← h1]
      show s = List.takeWhile (fun c => !(isQuote c)) s ++ q :: r
      rw [← hdw]
      exact (List.takeWhile_append_dropWhile (fun c => !(isQuote c)) s).symm
    · rw [← h1]
      simpa using he
    · intro c hc
      rw [← h1] at hc
      have := List.mem_takeWhile_imp hc
      simpa using this

theorem matchAt_decomp {s : List Char} {a b : String} {rest : List Char}
    (h : matchAt s = some (a, b, rest)) :
    ∃ ws1 ws2 ws3 ws4 ws5 q1 q2 q3 q4,
      s = occurrenceShape ws1 ws2 ws3 ws4 ws5 a.data b.data q1 q2 q3 q4 rest ∧
        occurrenceSides ws1 ws2 ws3 ws4 ws5 a.data b.data q1 q2 q3 q4 := by
  unfold matchAt at h
  rw [Option.bind_eq_some] at h; obtain ⟨s1, hLit, h⟩ := h
  rw [Option.bind_eq_some] at h; obtain ⟨s2, hPar, h⟩ := h
  rw [Option.bind_eq_some] at h; obtain ⟨s3, hOq1, h⟩ := h
  rw [Option.bind_eq_some] at h; obtain ⟨a4, hA, h⟩ := h
  rw [Option.bind_eq_some] at h; obtain ⟨s5, hComma, h⟩ := h
  rw [Option.bind_eq_some] at h; obtain ⟨s6, hOq3, h⟩ := h
  rw [Option.bind_eq_some] at h; obtain ⟨b7, hB, h⟩ := h
  rw [Option.map_eq_some'] at h; obtain ⟨s8, hClose, heq⟩ := h
  simp only [Prod.mk.injEq] at heq
  obtain ⟨hA1, hB1, hR⟩ := heq
  have e0 : s = litChars ++ s1 := expectLit_decomp litChars s s1 hLit
  have e1 : s1 = List.takeWhile isPySpace s1 ++ List.dropWhile isPySpace s1 :=
    (List.takeWhile_append_dropWhile isPySpace s1).symm
  have e1b : List.dropWhile isPySpace s1 = '(' :: s2 := expectChar_decomp hPar
  have e2 : s2 = List.takeWhile isPySpace s2 ++ List.dropWhile isPySpace s2 :=
    (List.takeWhile_append_dropWhile isPySpace s2).symm
  obtain ⟨q1, hq1, e2b⟩ := expectQuote_decomp hOq1
  obtain ⟨q2, hq2, e3, hane, hanq⟩ := takeArg_decomp hA
  have e4 : a4.2 = List.takeWhile isPySpace a4.2 ++ List.dropWhile isPySpace a4.2 :=
    (List.takeWhile_append_dropWhile isPySpace a4.2).symm
  have e4b : List.dropWhile isPySpace a4.2 = ',' :: s5 := expectChar_decomp hComma
  have e5 : s5 = List.takeWhile isPySpace s5 ++ List.dropWhile isPySpace s5 :=
    (List.takeWhile_append_dropWhile isPySpace s5).symm
  obtain ⟨q3, hq3, e5b⟩ := expectQuote_decomp hOq3
  obtain ⟨q4, hq4, e6, hbne, hbnq⟩ := takeArg_decomp hB
  have e7 : b7.2 = List.takeWhile isPySpace b7.2 ++ List.dropWhile isPySpace b7.2 :=
    (List.takeWhile_append_dropWhile isPySpace b7.2).symm
  have e7b : List.dropWhile isPySpace b7.2 = ')' :: s8 := expectChar_decomp hClose
  subst hA1
  subst hB1
  subst hR
  refine ⟨List.takeWhile isPySpace s1, List.takeWhile isPySpace s2,
    List.takeWhile isPySpace a4.2, List.takeWhile isPySpace s5,
    List.takeWhile isPySpace b7.2, q1, q2, q3, q4, ?_, ?_⟩
  · rw [e1b] at e1
    rw [e2b] at e2
    rw [e4b] at e4
    rw [e5b] at e5
    rw [e7b] at e7
    conv_lhs => rw [e0, e1, e2, e3, e4, e5, e6, e7]
    simp only [occurrenceShape]
  · exact ⟨fun c hc => List.mem_takeWhile_imp hc, fun c hc => List.mem_takeWhile_imp hc,
      fun c hc => List.mem_takeWhile_imp hc, fun c hc => List.mem_takeWhile_imp hc,
      fun c hc => List.mem_takeWhile_imp hc, hane, hanq, hbne, hbnq, hq1, hq2, hq3, hq4⟩

theorem matchAt_consumed {s : List Char} {a b : String} {rest : List Char}
    (h : matchAt s = some (a, b, rest)) : ∃ consumed, s = consumed ++ rest := by
  obtain ⟨ws1, ws2, ws3, ws4, ws5, q1, q2, q3, q4, hs, _⟩ := matchAt_decomp h
  exact ⟨occurrenceShape ws1 ws2 ws3 ws4 ws5 a.data b.data q1 q2 q3 q4 [],
    by rw [hs, occurrenceShape_append]⟩

theorem matchAt_length {s : List Char} {a b : String} {rest : List Char}
    (h : matchAt s = some (a, b, rest)) : rest.length < s.length := by
  obtain ⟨ws1, ws2, ws3, ws4, ws5, q1, q2, q3, q4, hs, _⟩ := matchAt_decomp h
  rw [hs, occurrenceShape_append, List.length_append]
  have hpos : 0 < (occurrenceShape ws1 ws2 ws3 ws4 ws5 a.data b.data q1 q2 q3 q4 []).length :=
    List.length_pos.mpr (occurrenceShape_ne_nil ws1 ws2 ws3 ws4 ws5 a.data b.data q1 q2 q3 q4 [])
  omega

theorem scanAux_fuel : ∀ (n : Nat) (s : List Char) (m : Nat),
    s.length ≤ n → s.length ≤ m → scanAux n s = scanAux m s := by
  intro n
  induction n with
  | zero =>
    intro s m hn _
    have hs : s = [] := List.length_eq_zero.mp (Nat.le_zero.mp hn)
    rw [hs, scanAux_nil, scanAux_nil]
  | succ n ih =>
    intro s m hn hm
    cases s with
    | nil => rw [scanAux_nil, scanAux_nil]
    | cons c cs =>
      cases m with
      | zero => simp [List.length_cons] at hm
      | succ m =>
        rw [scanAux_succ_cons, scanAux_succ_cons]
        cases hmat : matchAt (c :: cs) with
        | none =>
          simp only [hmat]
          have hc := List.length_cons c cs
          exact ih cs m (by omega) (by omega)
        | some v =>
          obtain ⟨va, vb, vrest⟩ := v
          simp only [hmat]
          have hlt := matchAt_length hmat
          have hc := List.length_cons c cs
          rw [ih vrest m (by omega) (by omega)]

theorem scanAux_append_no_match : ∀ (pre s : List Char),
    (∀ t ∈ pre.tails, t ≠ [] → matchAt (t ++ s) = none) →
    scanAux (pre ++ s).length (pre ++ s) = scanAux s.length s := by
  intro pre
  induction pre with
  | nil => intro s _; rfl
  | cons c cs ih =>
    intro s h
    have hm : matchAt ((c :: cs) ++ s) = none := by
      apply h (c :: cs) ?_ (List.cons_ne_nil c cs)
      rw [List.tails_cons]
      exact List.mem_cons_self _ _
    rw [List.cons_append] at hm ⊢
    rw [List.length_cons, scanAux_succ_cons, hm]
    show scanAux (cs ++ s).length (cs ++ s) = scanAux s.length s
    exact ih s (fun t ht hne => h t (by rw [List.tails_cons]; exact List.mem_cons_of_mem _ ht) hne)

theorem scanAux_start_match (s : List Char) (a b : String) (rest : List Char)
    (hne : s ≠ []) (hm : matchAt s = some (a, b, rest)) :
    scanAux s.length s = (a, b) :: scanAux rest.length rest := by
  cases s with
  | nil => cases hne rfl
  | cons c cs =>
    rw [List.length_cons, scanAux_succ_cons, hm]
    show (a, b) :: scanAux cs.length rest = (a, b) :: scanAux rest.length rest
    have hlt := matchAt_length hm
    have hc := List.length_cons c cs
    rw [scanAux_fuel cs.length rest rest.length (by omega) (Nat.le_refl _)]

theorem mem_scanAux_decomp {x : String × String} :
    ∀ (n : Nat) (s : List Char), x ∈ scanAux n s →
      ∃ pre s0 rest, s = pre ++ s0 ∧ matchAt s0 = some (x.1, x.2, rest) := by
  intro n
  induction n with
  | zero => intro s h; simp [scanAux] at h
  | succ n ih =>
    intro s h
    cases s with
    | nil => rw [scanAux_nil] at h; cases h
    | cons c cs =>
      rw [scanAux_succ_cons] at h
      split at h
      next va vb vrest heq =>
        rcases List.mem_cons.mp h with rfl | hmem
        · exact ⟨[], c :: cs, vrest, rfl, heq⟩
        · obtain ⟨pre, s0, rest, hs, hm⟩ := ih vrest hmem
          obtain ⟨consumed, hc⟩ := matchAt_consumed heq
          exact ⟨consumed ++ pre, s0, rest, by rw [hc, hs, List.append_assoc], hm⟩
      next heq =>
        obtain ⟨pre, s0, rest, hs, hm⟩ := ih cs h
        exact ⟨c :: pre, s0, rest, by rw [List.cons_append, hs], hm⟩

theorem matchAt_occurrence (ws1 ws2 ws3 ws4 ws5 a b : List Char) (q1 q2 q3 q4 : Char)
    (rest : List Char) (hsides : occurrenceSides ws1 ws2 ws3 ws4 ws5 a b q1 q2 q3 q4) :
    matchAt (occurrenceShape ws1 ws2 ws3 ws4 ws5 a b q1 q2 q3 q4 rest)
      = some (String.mk a, String.mk b, rest) := by
  obtain ⟨h1, h2, h3, h4, h5, ha, haq, hb, hbq, hq1, hq2, hq3, hq4⟩ := hsides
  simp only [occurrenceShape]
  exact matchAt_canonical ws1 ws2 ws3 ws4 ws5 a b q1 q2 q3 q4 rest h1 h2 h3 h4 h5 ha haq hb
    hbq hq1 hq2 hq3 hq4

/-! ### Lemmas about the reporter and the probed paths -/

theorem perm_all_eq {l1 l2 : List α} (h : l1.Perm l2) (P : α → Bool) :
    l1.all P = l2.all P := by
  apply Bool.eq_iff_iff.mpr
  rw [List.all_eq_true, List.all_eq_true]
  constructor
  · intro hall x hx
    exact hall x (h.mem_iff.mpr hx)
  · intro hall x hx
    exact hall x (h.mem_iff.mp hx)

theorem list_all_map (f : α → β) (l : List α) (P : β → Bool) :
    (l.map f).all P = l.all (fun x => P (f x)) := by
  induction l with
  | nil => rfl
  | cons x xs ih => simp [ih]

theorem all_congr_mem {l : List α} {f g : α → Bool} (h : ∀ x ∈ l, f x = g x) :
    l.all f = l.all g := by
  induction l with
  | nil => rfl
  | cons x xs ih =>
    rw [List.all_cons, List.all_cons, h x (List.mem_cons_self x xs),
        ih (fun y hy => h y (List.mem_cons_of_mem x hy))]

theorem print_results_verdict (results : List DomainReport) (lob : String) :
    (print_results results lob).2
      = results.all (fun item => ENVIRONMENTS.all fun env => (getEnv item.lob env).1) := by
  unfold print_results
  have h1 : ∀ (l : List DomainReport) (b : Bool),
      l.foldl (fun all_ok item =>
          ENVIRONMENTS.foldl (fun ok env => ok && (getEnv item.lob env).1) all_ok) b
        = (b && l.all (fun item => ENVIRONMENTS.all fun env => (getEnv item.lob env).1)) := by
    intro l
    induction l with
    | nil => intro b; simp
    | cons x xs ih =>
      intro b
      rw [List.foldl_cons, foldl_and_eq _ ENVIRONMENTS b, ih, List.all_cons, Bool.and_assoc]
  simp only [h1, Bool.true_and]
  exact perm_all_eq (insertionSortB_perm reportLe results) _

theorem getEnv_check_env_files (fs : String → FsEntry) (base dn dt env : String)
    (h : env ∈ ENVIRONMENTS) :
    getEnv (check_env_files fs base dn dt) env
      = (isfile fs (envPath base dn dt env), envPath base dn dt env) := by
  have h3 : env = "uat" ∨ env = "demo" ∨ env = "prod" := by
    simpa [ENVIRONMENTS] using h
  rcases h3 with rfl | rfl | rfl <;> rfl

theorem verdict_check_registry (fs : String → FsEntry) (registry lob : String)
    (pairs : List (String × String)) :
    (print_results (check_registry_configs fs registry lob pairs) lob).2
      = pairs.all (fun p => ENVIRONMENTS.all fun env =>
          isfile fs (envPath (pjoin2 registry lob) p.1 p.2 env)) := by
  rw [print_results_verdict]
  simp only [check_registry_configs]
  rw [list_all_map]
  apply all_congr_mem
  intro p _
  apply all_congr_mem
  intro env henv
  rw [getEnv_check_env_files fs _ _ _ env henv]

theorem pjoin2_eq (a b : String) (ha : a.data ≠ []) (ha2 : a.data.getLast? ≠ some '/')
    (hb : b.data.head? ≠ some '/') : pjoin2 a b = a ++ "/" ++ b := by
  unfold pjoin2
  rw [if_neg hb, if_neg (not_or.mpr ⟨ha, ha2⟩)]

theorem data_append_slash (a b : String) : (a ++ "/" ++ b).data = a.data ++ ('/' :: b.data) := by
  rw [String.data_append, String.data_append, List.append_assoc]
  rfl

theorem getLast?_cons_of_ne_nil (c : Char) (l : List Char) (h : l ≠ []) :
    (c :: l).getLast? = l.getLast? := by
  cases l with
  | nil => cases h rfl
  | cons d ds => rw [List.getLast?_cons_cons]

theorem getLast?_slash_append (a b : String) (hb : b.data ≠ []) :
    (a ++ "/" ++ b).data.getLast? = b.data.getLast? := by
  rw [data_append_slash, List.getLast?_append, getLast?_cons_of_ne_nil '/' b.data hb]
  obtain ⟨x, hx⟩ : ∃ x, b.data.getLast? = some x := by
    cases hbl : b.data.getLast? with
    | none => exact absurd (List.getLast?_eq_none_iff.mp hbl) hb
    | some x => exact ⟨x, rfl⟩
  rw [hx]
  rfl

theorem slash_append_ne_nil (a b : String) : (a ++ "/" ++ b).data ≠ [] := by
  rw [data_append_slash]
  simp

theorem envPath_eq (base dn dt env : String)
    (hb : base.data ≠ []) (hb2 : base.data.getLast? ≠ some '/')
    (hdn : dn.data ≠ []) (hdn1 : dn.data.head? ≠ some '/') (hdn2 : dn.data.getLast? ≠ some '/')
    (hdt : dt.data ≠ []) (hdt1 : dt.data.head? ≠ some '/') (hdt2 : dt.data.getLast? ≠ some '/')
    (henv : (env ++ ".txt").data.head? ≠ some '/') :
    envPath base dn dt env = ((base ++ "/" ++ dn) ++ "/" ++ dt) ++ "/" ++ (env ++ ".txt") := by
  unfold envPath
  rw [pjoin2_eq base dn hb hb2 hdn1]
  rw [pjoin2_eq (base ++ "/" ++ dn) dt (slash_append_ne_nil base dn)
        (by rw [getLast?_slash_append base dn hdn]; exact hdn2) hdt1]
  rw [pjoin2_eq ((base ++ "/" ++ dn) ++ "/" ++ dt) (env ++ ".txt")
        (slash_append_ne_nil _ dt)
        (by rw [getLast?_slash_append _ dt hdt]; exact hdt2) henv]

theorem map_congr_mem {l : List α} {f g : α → β} (h : ∀ x ∈ l, f x = g x) :
    l.map f = l.map g := by
  induction l with
  | nil => rfl
  | cons x xs ih =>
    rw [List.map_cons, List.map_cons, h x (List.mem_cons_self x xs),
        ih (fun y hy => h y (List.mem_cons_of_mem x hy))]

/-- C6: on every diff output, the extractor returns, in diff order, exactly
the lines carrying the addition marker that are not `+++` file-path header
markers, each with the leading `+` stripped; context lines, removals and
headers are excluded. -/
theorem get_added_lines_spec (stdout_lines : List String) :
    get_added_lines stdout_lines
      = (stdout_lines.filter fun line => isAdditionLine line && !(isFileHeaderLine line)).map
          strDrop1 := by
  unfold get_added_lines isAdditionLine isFileHeaderLine
  rw [foldl_filter_map]
  rw [List.nil_append]

/-- C9: a call whose argument delimiters are mismatched quote characters is
still matched — the opening and closing quote of an argument need not be
the same character.  On the line `findByDomainNameAndType("x', 'y")` the
matcher extracts the pair ("x", "y"). -/
theorem mismatched_quotes_still_extract :
    extract_domain_pairs ["findByDomainNameAndType(\"x', 'y\")"] = [("x", "y")] := by
  decide

/-- C10: a directory (or anything that is not a regular file) located
exactly at the probed `{base}/{domainName}/{domainType}/{env}.txt` path is
reported as missing (flag `false`), not as present. -/
theorem dir_at_env_path_reported_missing (fs : String → FsEntry) (base dn dt env : String)
    (henv : env ∈ ENVIRONMENTS) (hdir : fs (envPath base dn dt env) = FsEntry.dir) :
    getEnv (check_env_files fs base dn dt) env = (false, envPath base dn dt env) := by
  rw [getEnv_check_env_files fs base dn dt env henv]
  have hfalse : isfile fs (envPath base dn dt env) = false := by
    unfold isfile
    rw [hdir]
  rw [hfalse]

/-- C10 witness: a filesystem mapping every path to a directory still
reports the `uat` probe as missing. -/
theorem dir_at_env_path_reported_missing_witness :
    getEnv (check_env_files (fun _ => FsEntry.dir) "b" "a" "c") "uat"
      = (false, "b/a/c/uat.txt") := by
  have h := dir_at_env_path_reported_missing (fun _ => FsEntry.dir) "b" "a" "c" "uat"
    (by decide) rfl
  rw [h]
  rfl

/-- C8: every extracted pair has nonempty fields containing no quote
character, and an occurrence with an empty string literal argument
contributes no pair. -/
theorem extracted_fields_nonempty_quote_free :
    (∀ (lines : List String) (p : String × String), p ∈ extract_domain_pairs lines →
        p.1 ≠ "" ∧ p.2 ≠ "" ∧ (∀ c ∈ p.1.data, isQuote c = false) ∧
          (∀ c ∈ p.2.data, isQuote c = false))
    ∧ extract_domain_pairs ["findByDomainNameAndType(\"\", \"y\")"] = [] := by
  constructor
  · intro lines p hp
    obtain ⟨line, _, hm⟩ := (mem_extract_iff lines p).mp hp
    obtain ⟨s0, rest, hma⟩ := mem_scanAux _ _ hm
    obtain ⟨⟨ha1, ha2⟩, hb1, hb2⟩ := matchAt_eq_some hma
    refine ⟨?_, ?_, ha2, hb2⟩
    · intro hcontra
      apply ha1
      rw [hcontra]
    · intro hcontra
      apply hb1
      rw [hcontra]
  · decide

/-- C8 witness: the matched pair of `findByDomainNameAndType('x','y')` has
nonempty, quote-free fields. -/
theorem extracted_fields_nonempty_quote_free_witness :
    ("x", "y").1 ≠ "" ∧ ("x", "y").2 ≠ "" :=
  have h := extracted_fields_nonempty_quote_free.1 ["findByDomainNameAndType('x','y')"]
    ("x", "y") (by decide)
  ⟨h.1, h.2.1⟩

/-- C4: exact characterization of the matcher on every added line.
(i) Soundness: a DomainPair is extracted only from an occurrence of
`findByDomainNameAndType(<arg1>, <arg2>)` — the line splits as some prefix
followed by the occurrence shape, whose arguments are nonempty quote-free
texts between single- or double-quote delimiters with arbitrary whitespace
at the tolerated spots, and the pair is exactly the two argument texts,
captured verbatim (case-sensitively, with no normalization or trimming).
(ii) A line no position of which starts a match contributes zero pairs.
(iii) After any prefix in which no match starts, the leftmost occurrence
is matched, its captures are emitted verbatim, and scanning continues on
the remainder of the line — so zero, one, or multiple occurrences on one
line are all collected. -/
theorem pattern_matcher_exact :
    (∀ (line : String) (p : String × String), p ∈ lineMatches line →
      ∃ pre ws1 ws2 ws3 ws4 ws5 a b q1 q2 q3 q4 rest,
        line.data = pre ++ occurrenceShape ws1 ws2 ws3 ws4 ws5 a b q1 q2 q3 q4 rest
          ∧ occurrenceSides ws1 ws2 ws3 ws4 ws5 a b q1 q2 q3 q4
          ∧ p = (String.mk a, String.mk b))
    ∧ (∀ L : List Char, (∀ t ∈ L.tails, matchAt t = none) →
        lineMatches (String.mk L) = [])
    ∧ (∀ pre ws1 ws2 ws3 ws4 ws5 a b q1 q2 q3 q4 rest,
        occurrenceSides ws1 ws2 ws3 ws4 ws5 a b q1 q2 q3 q4 →
        (∀ t ∈ pre.tails, t ≠ [] →
          matchAt (t ++ occurrenceShape ws1 ws2 ws3 ws4 ws5 a b q1 q2 q3 q4 rest) = none) →
        lineMatches (String.mk (pre ++ occurrenceShape ws1 ws2 ws3 ws4 ws5 a b q1 q2 q3 q4 rest))
          = (String.mk a, String.mk b) :: lineMatches (String.mk rest)) := by
  refine ⟨?_, ?_, ?_⟩
  · intro line p hp
    have hp' : p ∈ scanAux line.data.length line.data := hp
    obtain ⟨pre, s0, rest, hs, hm⟩ := mem_scanAux_decomp line.data.length line.data hp'
    obtain ⟨ws1, ws2, ws3, ws4, ws5, q1, q2, q3, q4, hshape, hsides⟩ := matchAt_decomp hm
    refine ⟨pre, ws1, ws2, ws3, ws4, ws5, p.1.data, p.2.data, q1, q2, q3, q4, rest,
      ?_, hsides, rfl⟩
    rw [hs, hshape]
  · intro L hL
    show scanAux L.length L = []
    have h := scanAux_append_no_match L []
      (fun t ht _ => by rw [List.append_nil]; exact hL t ht)
    rw [List.append_nil] at h
    exact h
  · intro pre ws1 ws2 ws3 ws4 ws5 a b q1 q2 q3 q4 rest hsides hpre
    show scanAux (pre ++ occurrenceShape ws1 ws2 ws3 ws4 ws5 a b q1 q2 q3 q4 rest).length
        (pre ++ occurrenceShape ws1 ws2 ws3 ws4 ws5 a b q1 q2 q3 q4 rest)
      = (String.mk a, String.mk b) :: scanAux rest.length rest
    rw [scanAux_append_no_match pre _ hpre]
    exact scanAux_start_match _ _ _ _
      (occurrenceShape_ne_nil ws1 ws2 ws3 ws4 ws5 a b q1 q2 q3 q4 rest)
      (matchAt_occurrence ws1 ws2 ws3 ws4 ws5 a b q1 q2 q3 q4 rest hsides)

/-- C4 witness: on a line where the call is embedded after other text and
written with extra whitespace and single/double quotes, exactly the one
occurrence is matched and both literals are captured verbatim. -/
theorem pattern_matcher_exact_witness :
    lineMatches "x findByDomainNameAndType( 'p' , \"q\" )" = [("p", "q")] := by
  have h := pattern_matcher_exact.2.2 "x ".data [] [' '] [' '] [' '] [' ']
    "p".data "q".data '\'' '\'' '"' '"' [] (by decide) (by decide)
  exact h

theorem envPath_base_eq (registry lob dn dt env : String)
    (hreg : registry.data ≠ []) (hreg2 : registry.data.getLast? ≠ some '/')
    (hlob : lob.data ≠ []) (hlob1 : lob.data.head? ≠ some '/')
    (hlob2 : lob.data.getLast? ≠ some '/')
    (hdn : dn.data ≠ []) (hdn1 : dn.data.head? ≠ some '/') (hdn2 : dn.data.getLast? ≠ some '/')
    (hdt : dt.data ≠ []) (hdt1 : dt.data.head? ≠ some '/') (hdt2 : dt.data.getLast? ≠ some '/')
    (henv : (env ++ ".txt").data.head? ≠ some '/') :
    envPath (pjoin2 registry lob) dn dt env
      = registry ++ "/" ++ lob ++ "/" ++ dn ++ "/" ++ dt ++ "/" ++ (env ++ ".txt") := by
  rw [pjoin2_eq registry lob hreg hreg2 hlob1]
  rw [envPath_eq (registry ++ "/" ++ lob) dn dt env (slash_append_ne_nil registry lob)
        (by rw [getLast?_slash_append registry lob hlob]; exact hlob2) hdn hdn1 hdn2
        hdt hdt1 hdt2 henv]

/-- C5: for every domain pair the registry checker probes exactly the six
paths `{registryRoot}/{lob}/{dn}/{dt}/{env}.txt` and
`{registryRoot}/default/{dn}/{dt}/{env}.txt` for the three fixed
environments, producing one report per pair with exactly 3 LOB results and
3 default results, a missing file appearing as the flag `false` paired
with the probed path rather than as an error. -/
theorem registry_checker_six_paths (fs : String → FsEntry) (registry_path lob : String)
    (pairs : List (String × String))
    (hreg : registry_path.data ≠ []) (hreg2 : registry_path.data.getLast? ≠ some '/')
    (hlob : lob.data ≠ []) (hlob1 : lob.data.head? ≠ some '/')
    (hlob2 : lob.data.getLast? ≠ some '/')
    (hp : ∀ p ∈ pairs, p.1.data ≠ [] ∧ p.1.data.head? ≠ some '/' ∧
        p.1.data.getLast? ≠ some '/' ∧ p.2.data ≠ [] ∧ p.2.data.head? ≠ some '/' ∧
        p.2.data.getLast? ≠ some '/') :
    (check_registry_configs fs registry_path lob pairs
        = pairs.map (fun p =>
            { domain_name := p.1
              domain_type := p.2
              label := p.1 ++ "/" ++ p.2
              lob := ENVIRONMENTS.map (fun env =>
                (env,
                 isfile fs (registry_path ++ "/" ++ lob ++ "/" ++ p.1 ++ "/" ++ p.2 ++ "/" ++ (env ++ ".txt")),
                 registry_path ++ "/" ++ lob ++ "/" ++ p.1 ++ "/" ++ p.2 ++ "/" ++ (env ++ ".txt")))
              default := ENVIRONMENTS.map (fun env =>
                (env,
                 isfile fs (registry_path ++ "/" ++ "default" ++ "/" ++ p.1 ++ "/" ++ p.2 ++ "/" ++ (env ++ ".txt")),
                 registry_path ++ "/" ++ "default" ++ "/" ++ p.1 ++ "/" ++ p.2 ++ "/" ++ (env ++ ".txt"))) }))
    ∧ ∀ r ∈ check_registry_configs fs registry_path lob pairs,
        r.lob.length = 3 ∧ r.default.length = 3 := by
  constructor
  · simp only [check_registry_configs]
    apply map_congr_mem
    intro p hp'
    obtain ⟨hp1, hp2, hp3, hp4, hp5, hp6⟩ := hp p hp'
    have elob : check_env_files fs (pjoin2 registry_path lob) p.1 p.2
        = ENVIRONMENTS.map (fun env =>
            (env,
             isfile fs (registry_path ++ "/" ++ lob ++ "/" ++ p.1 ++ "/" ++ p.2 ++ "/" ++ (env ++ ".txt")),
             registry_path ++ "/" ++ lob ++ "/" ++ p.1 ++ "/" ++ p.2 ++ "/" ++ (env ++ ".txt"))) := by
      unfold check_env_files
      apply map_congr_mem
      intro env henv
      have he : (env ++ ".txt").data.head? ≠ some '/' := by
        rcases (by simpa [ENVIRONMENTS] using henv : env = "uat" ∨ env = "demo" ∨ env = "prod")
          with rfl | rfl | rfl <;> decide
      rw [envPath_base_eq registry_path lob p.1 p.2 env hreg hreg2 hlob hlob1 hlob2
            hp1 hp2 hp3 hp4 hp5 hp6 he]
    have edef : check_env_files fs (pjoin2 registry_path "default") p.1 p.2
        = ENVIRONMENTS.map (fun env =>
            (env,
             isfile fs (registry_path ++ "/" ++ "default" ++ "/" ++ p.1 ++ "/" ++ p.2 ++ "/" ++ (env ++ ".txt")),
             registry_path ++ "/" ++ "default" ++ "/" ++ p.1 ++ "/" ++ p.2 ++ "/" ++ (env ++ ".txt"))) := by
      unfold check_env_files
      apply map_congr_mem
      intro env henv
      have he : (env ++ ".txt").data.head? ≠ some '/' := by
        rcases (by simpa [ENVIRONMENTS] using henv : env = "uat" ∨ env = "demo" ∨ env = "prod")
          with rfl | rfl | rfl <;> decide
      rw [envPath_base_eq registry_path "default" p.1 p.2 env hreg hreg2 (by decide)
            (by decide) (by decide) hp1 hp2 hp3 hp4 hp5 hp6 he]
    rw [elob, edef]
  · intro r hr
    simp only [check_registry_configs] at hr
    obtain ⟨p, _, rfl⟩ := List.mem_map.mp hr
    exact ⟨rfl, rfl⟩

/-- C5 witness: one pair in a concrete registry yields a single report,
labelled by the pair. -/
theorem registry_checker_six_paths_witness :
    (check_registry_configs (fun _ => FsEntry.absent) "reg" "retail" [("a", "b")]).map
        (fun r => r.label) = ["a/b"] := by
  have h := (registry_checker_six_paths (fun _ => FsEntry.absent) "reg" "retail" [("a", "b")]
    (by decide) (by decide) (by decide) (by decide) (by decide) (by decide)).1
  rw [h]
  rfl

/-- C7: whenever the source path is not a directory, lacks a `.git`
subdirectory, or the registry path is not a directory, the run prints the
corresponding path-specific diagnostic and exits with status 1 without ever
invoking the diff subprocess. -/
theorem validation_fails_fast (fs : String → FsEntry)
    (feature master lob repo registry : String) (git_diff : Except String (List String)) :
    (isdir fs repo = false →
      main_run fs feature master lob repo registry git_diff
        = { exitCode := 1, diffInvoked := false,
            output := [OutLine.text ("ERROR: Source repo path does not exist: " ++ repo)] })
    ∧ (isdir fs repo = true → isdir fs (pjoin2 repo ".git") = false →
      main_run fs feature master lob repo registry git_diff
        = { exitCode := 1, diffInvoked := false,
            output := [OutLine.text ("ERROR: Source repo path is not a git repository: " ++ repo)] })
    ∧ (isdir fs repo = true → isdir fs (pjoin2 repo ".git") = true →
        isdir fs registry = false →
      main_run fs feature master lob repo registry git_diff
        = { exitCode := 1, diffInvoked := false,
            output := [OutLine.text ("ERROR: Registry path does not exist: " ++ registry)] }) := by
  refine ⟨?_, ?_, ?_⟩
  · intro h
    simp [main_run, validate_args, h]
  · intro h1 h2
    simp [main_run, validate_args, h1, h2]
  · intro h1 h2 h3
    simp [main_run, validate_args, h1, h2, h3]

/-- C7 witness: on an all-absent filesystem the run reports the missing
source path and never invokes the diff. -/
theorem validation_fails_fast_witness :
    main_run (fun _ => FsEntry.absent) "f" "m" "l" "repo" "reg" (Except.ok [])
      = { exitCode := 1, diffInvoked := false,
          output := [OutLine.text ("ERROR: Source repo path does not exist: " ++ "repo")] } :=
  (validation_fails_fast (fun _ => FsEntry.absent) "f" "m" "l" "repo" "reg" (Except.ok [])).1 rfl

/-- C3: the extracted collection is a deduplicated set under value equality
of the pair — membership agrees with the multiset of all matches, the
collection itself has no duplicates, and every member yields exactly one
entry in the (sorted) report of the registry checker. -/
theorem extraction_deduplicates (lines : List String) (p : String × String)
    (fs : String → FsEntry) (registry lob : String) :
    (p ∈ extract_domain_pairs lines ↔ p ∈ lines.flatMap lineMatches)
    ∧ (extract_domain_pairs lines).Nodup
    ∧ (p ∈ extract_domain_pairs lines →
        ((sortReports (check_registry_configs fs registry lob (extract_domain_pairs lines))).filter
            (fun r => decide (r.domain_name = p.1) && decide (r.domain_type = p.2))).length
          = 1) := by
  refine ⟨?_, nodup_extract lines, ?_⟩
  · exact (mem_extract_iff lines p).trans List.mem_flatMap.symm
  · intro hp
    rw [← List.countP_eq_length_filter]
    simp only [sortReports]
    rw [List.Perm.countP_eq _
      (insertionSortB_perm reportLe (check_registry_configs fs registry lob (extract_domain_pairs lines)))]
    simp only [check_registry_configs]
    rw [List.countP_map]
    apply countP_eq_one_of_nodup _ p _ (nodup_extract lines) hp
    intro y
    simp [Prod.ext_iff]

/-- C3 witness: two added lines with the same call in different quote
styles yield one report entry. -/
theorem extraction_deduplicates_witness :
    ((sortReports (check_registry_configs (fun _ => FsEntry.absent) "reg" "retail"
          (extract_domain_pairs
            ["findByDomainNameAndType('x','y')", "findByDomainNameAndType(\"x\", \"y\")"]))).filter
        (fun r => decide (r.domain_name = ("x", "y").1) && decide (r.domain_type = ("x", "y").2))).length
      = 1 := by
  have h := extraction_deduplicates
    ["findByDomainNameAndType('x','y')", "findByDomainNameAndType(\"x\", \"y\")"] ("x", "y")
    (fun _ => FsEntry.absent) "reg" "retail"
  exact h.2.2 (by decide)

/-- C1: under valid arguments and a successful diff, the exit status is 0
exactly when no pair was extracted or every one of the three LOB-path
environment files exists for every extracted pair, and 1 otherwise. -/
theorem exit_zero_iff_pairs_empty_or_all_lob_present (fs : String → FsEntry)
    (feature master lob repo registry : String) (stdout_lines : List String)
    (h1 : isdir fs repo = true) (h2 : isdir fs (pjoin2 repo ".git") = true)
    (h3 : isdir fs registry = true) :
    (main_run fs feature master lob repo registry (Except.ok stdout_lines)).exitCode
      = if extract_domain_pairs (get_added_lines stdout_lines) = []
            ∨ ∀ p ∈ extract_domain_pairs (get_added_lines stdout_lines),
                ∀ env ∈ ENVIRONMENTS,
                  isfile fs (envPath (pjoin2 registry lob) p.1 p.2 env) = true
        then 0 else 1 := by
  have hval : validate_args fs repo registry = none := by
    simp [validate_args, h1, h2, h3]
  unfold main_run
  rw [hval]
  by_cases hemp : extract_domain_pairs (get_added_lines stdout_lines) = []
  · simp [hemp]
  · have hne : (extract_domain_pairs (get_added_lines stdout_lines)).isEmpty = false := by
      cases hc : extract_domain_pairs (get_added_lines stdout_lines) with
      | nil => exact absurd hc hemp
      | cons x xs => rfl
    simp only [hne, Bool.false_eq_true, if_false]
    rw [verdict_check_registry fs registry lob (extract_domain_pairs (get_added_lines stdout_lines))]
    by_cases hall : ∀ p ∈ extract_domain_pairs (get_added_lines stdout_lines),
        ∀ env ∈ ENVIRONMENTS, isfile fs (envPath (pjoin2 registry lob) p.1 p.2 env) = true
    · have hb : (extract_domain_pairs (get_added_lines stdout_lines)).all
          (fun p => ENVIRONMENTS.all fun env =>
            isfile fs (envPath (pjoin2 registry lob) p.1 p.2 env)) = true := by
        rw [List.all_eq_true]
        intro p hp
        rw [List.all_eq_true]
        intro env henv
        exact hall p hp env henv
      rw [hb, if_pos (Or.inr hall)]
      simp
    · have hb : (extract_domain_pairs (get_added_lines stdout_lines)).all
          (fun p => ENVIRONMENTS.all fun env =>
            isfile fs (envPath (pjoin2 registry lob) p.1 p.2 env)) = false := by
        rcases Bool.eq_false_or_eq_true ((extract_domain_pairs (get_added_lines stdout_lines)).all
          (fun p => ENVIRONMENTS.all fun env =>
            isfile fs (envPath (pjoin2 registry lob) p.1 p.2 env))) with ht | hf
        · exfalso
          apply hall
          intro p hp env henv
          have := List.all_eq_true.mp ht p hp
          exact List.all_eq_true.mp this env henv
        · exact hf
      rw [hb, if_neg (not_or.mpr ⟨hemp, hall⟩)]
      simp

/-- C1 witness: valid directories and an empty diff give exit status 0. -/
theorem exit_zero_iff_pairs_empty_or_all_lob_present_witness :
    (main_run (fun _ => FsEntry.dir) "f" "m" "l" "repo" "reg" (Except.ok [])).exitCode = 0 := by
  have h := exit_zero_iff_pairs_empty_or_all_lob_present (fun _ => FsEntry.dir)
    "f" "m" "l" "repo" "reg" [] rfl rfl rfl
  rw [h]
  rfl

theorem default_lines_displayed (fs : String → FsEntry)
    (feature master lob repo registry : String) (stdout_lines : List String)
    (hval : validate_args fs repo registry = none) :
    ∀ r ∈ check_registry_configs fs registry lob (extract_domain_pairs (get_added_lines stdout_lines)),
      ∀ env ∈ ENVIRONMENTS,
        OutLine.text (envStatusLine env (getEnv r.default env).1)
          ∈ (main_run fs feature master lob repo registry (Except.ok stdout_lines)).output := by
  intro r hr env henv
  unfold main_run
  rw [hval]
  have hpne : (extract_domain_pairs (get_added_lines stdout_lines)).isEmpty = false := by
    cases hpairs : extract_domain_pairs (get_added_lines stdout_lines) with
    | nil =>
      rw [hpairs] at hr
      simp [check_registry_configs] at hr
    | cons x xs => rfl
  simp only [hpne, Bool.false_eq_true, if_false]
  refine List.mem_append.mpr (Or.inl (List.mem_append.mpr (Or.inr ?_)))
  show OutLine.text (envStatusLine env (getEnv r.default env).1)
    ∈ (print_results (check_registry_configs fs registry lob
        (extract_domain_pairs (get_added_lines stdout_lines))) lob).1
  unfold print_results
  refine List.mem_flatten.mpr ⟨itemBlock lob r, List.mem_map_of_mem _ ?_, ?_⟩
  · exact (insertionSortB_perm reportLe _).mem_iff.mpr hr
  · unfold itemBlock
    refine List.mem_append.mpr (Or.inl (List.mem_append.mpr (Or.inr ?_)))
    exact List.mem_map.mpr ⟨env, henv, rfl⟩

/-- C2 (amended): the aggregate verdict depends only on the LOB-path
existence flags — any two runs with identical arguments and diff whose
filesystems agree on directory status everywhere and on the existence of
every probed LOB path (in particular, runs differing only in default-path
files whenever no LOB probe lies under `{registryRoot}/default/`) have
identical aggregate verdict and exit status, while the default-path
per-environment statuses are still computed and displayed in both runs.
(The unamended claim fails when the LOB identifier makes an LOB probe
coincide with a default probe, e.g. `lob = "default"`.) -/
theorem verdict_depends_only_on_lob_flags (fs1 fs2 : String → FsEntry)
    (feature master lob repo registry : String) (stdout_lines : List String)
    (h1 : isdir fs1 repo = true) (h2 : isdir fs1 (pjoin2 repo ".git") = true)
    (h3 : isdir fs1 registry = true)
    (hdir : ∀ q : String, isdir fs1 q = isdir fs2 q)
    (hlob : ∀ p ∈ extract_domain_pairs (get_added_lines stdout_lines), ∀ env ∈ ENVIRONMENTS,
        isfile fs1 (envPath (pjoin2 registry lob) p.1 p.2 env)
          = isfile fs2 (envPath (pjoin2 registry lob) p.1 p.2 env)) :
    ((main_run fs1 feature master lob repo registry (Except.ok stdout_lines)).exitCode
        = (main_run fs2 feature master lob repo registry (Except.ok stdout_lines)).exitCode)
    ∧ ((print_results (check_registry_configs fs1 registry lob
          (extract_domain_pairs (get_added_lines stdout_lines))) lob).2
        = (print_results (check_registry_configs fs2 registry lob
          (extract_domain_pairs (get_added_lines stdout_lines))) lob).2)
    ∧ (∀ r ∈ check_registry_configs fs1 registry lob
          (extract_domain_pairs (get_added_lines stdout_lines)),
        ∀ env ∈ ENVIRONMENTS,
          OutLine.text (envStatusLine env (getEnv r.default env).1)
            ∈ (main_run fs1 feature master lob repo registry (Except.ok stdout_lines)).output)
    ∧ (∀ r ∈ check_registry_configs fs2 registry lob
          (extract_domain_pairs (get_added_lines stdout_lines)),
        ∀ env ∈ ENVIRONMENTS,
          OutLine.text (envStatusLine env (getEnv r.default env).1)
            ∈ (main_run fs2 feature master lob repo registry (Except.ok stdout_lines)).output) := by
  have hval1 : validate_args fs1 repo registry = none := by
    simp [validate_args, h1, h2, h3]
  have hval2 : validate_args fs2 repo registry = none := by
    have e1 : isdir fs2 repo = true := (hdir repo).symm.trans h1
    have e2 : isdir fs2 (pjoin2 repo ".git") = true := (hdir (pjoin2 repo ".git")).symm.trans h2
    have e3 : isdir fs2 registry = true := (hdir registry).symm.trans h3
    simp [validate_args, e1, e2, e3]
  have hverdict : (print_results (check_registry_configs fs1 registry lob
        (extract_domain_pairs (get_added_lines stdout_lines))) lob).2
      = (print_results (check_registry_configs fs2 registry lob
        (extract_domain_pairs (get_added_lines stdout_lines))) lob).2 := by
    rw [verdict_check_registry, verdict_check_registry]
    apply all_congr_mem
    intro p hp
    apply all_congr_mem
    intro env henv
    exact hlob p hp env henv
  refine ⟨?_, hverdict,
    default_lines_displayed fs1 feature master lob repo registry stdout_lines hval1,
    default_lines_displayed fs2 feature master lob repo registry stdout_lines hval2⟩
  unfold main_run
  rw [hval1, hval2]
  simp only []
  rcases Bool.eq_false_or_eq_true ((extract_domain_pairs (get_added_lines stdout_lines)).isEmpty)
    with he | he
  · rw [if_pos he, if_pos he]
  · simp only [he, Bool.false_eq_true, if_false]
    rw [hverdict]

/-- C2 witness: two identical runs on a trivially valid setup have equal
exit status and verdict, with default statuses displayed. -/
theorem verdict_depends_only_on_lob_flags_witness :
    ((main_run (fun _ => FsEntry.dir) "f" "m" "l" "repo" "reg" (Except.ok [])).exitCode
        = (main_run (fun _ => FsEntry.dir) "f" "m" "l" "repo" "reg" (Except.ok [])).exitCode)
    ∧ ((print_results (check_registry_configs (fun _ => FsEntry.dir) "reg" "l"
          (extract_domain_pairs (get_added_lines []))) "l").2
        = (print_results (check_registry_configs (fun _ => FsEntry.dir) "reg" "l"
          (extract_domain_pairs (get_added_lines []))) "l").2) :=
  have h := verdict_depends_only_on_lob_flags (fun _ => FsEntry.dir) (fun _ => FsEntry.dir)
    "f" "m" "l" "repo" "reg" [] rfl rfl rfl (fun _ => rfl)
    (fun p hp => by cases hp)
  ⟨h.1, h.2.1⟩

/-- C2 counterexample: the unamended claim — that two runs differing only
in the existence of files under `{registryRoot}/default/` always have the
same exit status — is false: with `lob = "default"` the LOB probes are the
default probes, so removing the three default files flips the exit status
from 0 to 1. -/
theorem default_files_can_flip_verdict :
    ¬ (∀ (fs1 fs2 : String → FsEntry) (feature master lob repo registry : String)
          (stdout_lines : List String),
        (∀ p : String, fs1 p ≠ fs2 p →
            strStartsWith p (pjoin2 registry "default" ++ "/") = true ∧
              fs1 p ≠ FsEntry.dir ∧ fs2 p ≠ FsEntry.dir) →
        (main_run fs1 feature master lob repo registry (Except.ok stdout_lines)).exitCode
          = (main_run fs2 feature master lob repo registry (Except.ok stdout_lines)).exitCode) := by
  intro hclaim
  have hside : ∀ p : String, cexFsPresent p ≠ cexFsMissing p →
      strStartsWith p (pjoin2 "r" "default" ++ "/") = true ∧
        cexFsPresent p ≠ FsEntry.dir ∧ cexFsMissing p ≠ FsEntry.dir := by
    intro p hne
    by_cases hp : p ∈ ["r/default/a/b/uat.txt", "r/default/a/b/demo.txt", "r/default/a/b/prod.txt"]
    · have hconc : p = "r/default/a/b/uat.txt" ∨ p = "r/default/a/b/demo.txt" ∨
          p = "r/default/a/b/prod.txt" := by simpa using hp
      rcases hconc with rfl | rfl | rfl <;> exact ⟨by decide, by decide, by decide⟩
    · exfalso
      apply hne
      unfold cexFsPresent
      rw [if_neg hp]
  have h01 := hclaim cexFsPresent cexFsMissing "f" "m" "default" "repo" "r" cexLines hside
  rw [show (main_run cexFsPresent "f" "m" "default" "repo" "r" (Except.ok cexLines)).exitCode = 0
        by decide,
      show (main_run cexFsMissing "f" "m" "default" "repo" "r" (Except.ok cexLines)).exitCode = 1
        by decide] at h01
  exact absurd h01 (by decide)
